import Mathlib

/-!
Verification of `find_timezones.py`.

The program reads `stations.json` (a JSON array of objects), collects the
non-null `timezone` field values into a Python `set`, and returns them
sorted ascending; run as a script it prints a count line followed by one
line per collected timezone.

We embed the Python values that `json.load` can produce, the dictionary
lookup `station.get('timezone')`, the `set` accumulation loop, and the
final `sorted(...)` call, together with the error behaviour of the Python
runtime (unhashable values at `set.add`, unorderable mixes at `sorted`).
-/

/-- A Python value as produced by `json.load`: JSON `null` becomes Python
`None`, and the remaining JSON value kinds become `bool`, `int`/`float`
(we model the numeric values by `Int`), `str`, `list` and `dict`. -/
inductive PyVal where
  | none
  | bool (b : Bool)
  | int (n : Int)
  | str (s : String)
  | list (xs : List PyVal)
  | dict (fields : List (String × PyVal))

/-- A station record: one object of the top-level JSON array, i.e. a
Python `dict` mapping field names to values. -/
abbrev Record := List (String × PyVal)

/-- The numeric view used by Python comparisons: `bool` is a subclass of
`int` (`True == 1`, `False == 0`), so booleans and integers compare
numerically with each other.  Non-numeric values have no numeric view. -/
def PyVal.asNum : PyVal → Option Int
  | .bool b => Option.some (if b then 1 else 0)
  | .int n => Option.some n
  | _ => Option.none

/-- The string view: `Option.some` exactly on `str` values. -/
def PyVal.asStr : PyVal → Option String
  | .str s => Option.some s
  | _ => Option.none

/-- Whether the value is a text (`str`) value. -/
def PyVal.isStr (v : PyVal) : Bool := v.asStr.isSome

/-- Whether the value is Python `None` (the image of JSON `null`). -/
def PyVal.isNone : PyVal → Bool
  | .none => true
  | _ => false

/-- Whether the value is hashable, i.e. may be inserted into a Python
`set`.  Of the values `json.load` produces, lists and dicts are
unhashable; `None`, booleans, numbers and strings are hashable. -/
def PyVal.hashable : PyVal → Bool
  | .list _ => false
  | .dict _ => false
  | _ => true

/-- Errors the Python runtime can raise inside `find_unique_timezones`
after the file has been parsed: `TypeError: unhashable type` from
`set.add`, and the `TypeError` raised by `sorted` when it compares two
values with no common order. -/
inductive PyError where
  | typeErrorUnhashable
  | typeErrorUnorderable

/-- Python `==` as used by `set` membership, restricted to the hashable
scalar values that can ever be offered to the timezone set (`bool`,
`int`, `str`; `None` is filtered out by the loop before insertion and
containers are rejected as unhashable).  Booleans equal their numeric
value (`True == 1`); strings compare by content; a number never equals
a string. -/
def setEq (a b : PyVal) : Bool :=
  match a.asNum, b.asNum with
  | Option.some m, Option.some n => m == n
  | _, _ =>
    match a, b with
    | .str s, .str t => s == t
    | _, _ => false

/-- `timezones.add(v)`: raises `TypeError` on unhashable values,
otherwise inserts `v` unless an `==`-equal element is already present.
The set is represented by its elements in insertion order; the order is
irrelevant to the program, which only ever sorts the set, and this
irrelevance is proved below. -/
def setAdd (s : List PyVal) (v : PyVal) : Except PyError (List PyVal) :=
  if v.hashable then
    Except.ok (if s.any fun w => setEq w v then s else s ++ [v])
  else
    Except.error PyError.typeErrorUnhashable

/-- `station.get('timezone')` for `station` a dict loaded from JSON:
the stored value if the key is present (JSON `null` having become
`None`), and `None` if the key is absent. -/
def pyGet (station : Record) (key : String) : PyVal :=
  match station.find? fun p => p.1 == key with
  | Option.some p => p.2
  | Option.none => PyVal.none

/-- The accumulation loop of `find_unique_timezones`:
`for station in stations: timezone = station.get('timezone');
if timezone is not None: timezones.add(timezone)`. -/
def collectTimezones : List Record → List PyVal → Except PyError (List PyVal)
  | [], acc => Except.ok acc
  | station :: rest, acc =>
    if (pyGet station "timezone").isNone then
      collectTimezones rest acc
    else
      match setAdd acc (pyGet station "timezone") with
      | Except.ok acc2 => collectTimezones rest acc2
      | Except.error e => Except.error e

/-- Sort key for the all-numeric case of `sorted` (faithful on values
with a numeric view, which is the only place it is consulted). -/
def numKey (v : PyVal) : Int := v.asNum.getD 0

/-- Lexicographic comparison of character lists by Unicode code point:
Python's `<=` on strings.  Defined by structural recursion so that it
evaluates on concrete inputs. -/
def charListLe : List Char → List Char → Bool
  | [], _ => true
  | _ :: _, [] => false
  | a :: as, b :: bs => if a = b then charListLe as bs else decide (a < b)

/-- Python's `<=` on strings: lexicographic by code point. -/
def strLe (s t : String) : Bool := charListLe s.data t.data

/-- Sort key for the all-string case of `sorted` (faithful on `str`
values, which is the only place it is consulted). -/
def strKey (v : PyVal) : String := v.asStr.getD ""

/-- Python `sorted` on the lists that can arise from the timezone set
(whose elements are always hashable scalars: booleans, numbers and
strings).  A list of at most one element involves no comparison and is
returned as is.  Otherwise, if all elements are mutually comparable —
all numeric, or all strings — the result is the stable ascending sort
(Python's sort is stable, and so is insertion sort); if both a string
and a non-string are present, some cross-type comparison is unavoidable
and `sorted` raises `TypeError`. -/
def pySorted (xs : List PyVal) : Except PyError (List PyVal) :=
  match xs with
  | [] => Except.ok []
  | [x] => Except.ok [x]
  | _ =>
    if xs.all fun v => v.asNum.isSome then
      Except.ok (List.insertionSort (fun a b => numKey a ≤ numKey b) xs)
    else if xs.all fun v => v.isStr then
      Except.ok (List.insertionSort (fun a b => strLe (strKey a) (strKey b) = true) xs)
    else
      Except.error PyError.typeErrorUnorderable

/-- `find_unique_timezones` after the input file has been read and
parsed into the list of station records: run the accumulation loop on an
initially empty set, then `return sorted(list(timezones))`.  An `error`
value is a propagated Python exception. -/
def find_unique_timezones (stations : List Record) : Except PyError (List PyVal) :=
  match collectTimezones stations [] with
  | Except.ok timezones => pySorted timezones
  | Except.error e => Except.error e

/-- `str(v)` as used by `print(timezone)`, for the scalar values that
can occur in the returned sequence (containers never can: they are
rejected as unhashable at `set.add`). -/
def pyStr : PyVal → String
  | .str s => s
  | .int n => toString n
  | .bool b => if b then "True" else "False"
  | _ => ""

/-- The `__main__` block: call `find_unique_timezones()`, print
`Found N unique timezones:` with `N` the length of the returned
sequence, then print each returned value on its own line, in order.
The result is the list of printed lines; an exception propagates and
nothing is printed. -/
def mainOutput (stations : List Record) : Except PyError (List String) :=
  match find_unique_timezones stations with
  | Except.ok tzs =>
    Except.ok (("Found " ++ toString tzs.length ++ " unique timezones:") :: tzs.map pyStr)
  | Except.error e => Except.error e

/-- Errors of a whole program run: `FileNotFoundError` from `open`,
`json.JSONDecodeError` from `json.load`, or a `TypeError` from the
collection/sort phase. -/
inductive RunError where
  | fileNotFound
  | jsonParseError
  | typeError (e : PyError)

/-- Modelled from the spec: the behaviour of `open('stations.json')` and
`json.load(f)`, which are Python-runtime primitives rather than code of
this repository.  The file system is an `Option String` (`Option.none`
when `stations.json` does not exist) and the JSON parser is a parameter
returning `Option.none` on malformed input.  Per the spec, a missing
file raises a file-not-found error and malformed contents raise a parse
error; either aborts the run before any line is printed, which the
`Except.error` results capture (an `error` result carries no output
lines). -/
def runProgram (file : Option String)
    (parseJson : String → Option (List Record)) : Except RunError (List String) :=
  match file with
  | Option.none => Except.error RunError.fileNotFound
  | Option.some contents =>
    match parseJson contents with
    | Option.none => Except.error RunError.jsonParseError
    | Option.some stations =>
      match mainOutput stations with
      | Except.ok lines => Except.ok lines
      | Except.error e => Except.error (RunError.typeError e)

/-- A valid input in the sense of the spec: a list of records whose
present, non-null `timezone` values are strings.  (`pyGet` returns
`PyVal.none` both for an absent key and for a JSON `null` value,
exactly as Python's `dict.get`.) -/
def validStations (stations : List Record) : Prop :=
  ∀ st ∈ stations, pyGet st "timezone" = PyVal.none ∨ (pyGet st "timezone").isStr = true

/-! ### Properties of the embedded primitives -/

theorem charListLe_refl (as : List Char) : charListLe as as = true := by
  induction as with
  | nil => rfl
  | cons a as ih => simp [charListLe, ih]

theorem charListLe_total (as bs : List Char) :
    charListLe as bs = true ∨ charListLe bs as = true := by
  induction as generalizing bs with
  | nil => exact Or.inl rfl
  | cons a as ih =>
    cases bs with
    | nil => exact Or.inr rfl
    | cons b bs =>
      by_cases hab : a = b
      · subst hab
        simpa [charListLe] using ih bs
      · rcases Ne.lt_or_lt hab with h | h
        · left; simp [charListLe, hab, h]
        · right; simp [charListLe, Ne.symm hab, h]

theorem charListLe_trans : ∀ as bs cs : List Char,
    charListLe as bs = true → charListLe bs cs = true → charListLe as cs = true
  | [], _, _, _, _ => rfl
  | _ :: _, [], _, h1, _ => by simp [charListLe] at h1
  | _ :: _, _ :: _, [], _, h2 => by simp [charListLe] at h2
  | a :: as, b :: bs, c :: cs, h1, h2 => by
    rw [charListLe] at h1 h2 ⊢
    by_cases hab : a = b
    · subst hab
      rw [if_pos rfl] at h1
      by_cases hac : a = c
      · subst hac
        rw [if_pos rfl] at h2 ⊢
        exact charListLe_trans as bs cs h1 h2
      · rw [if_neg hac] at h2 ⊢
        exact h2
    · rw [if_neg hab] at h1
      have hab2 : a < b := of_decide_eq_true h1
      by_cases hbc : b = c
      · subst hbc
        rw [if_neg hab]
        exact h1
      · rw [if_neg hbc] at h2
        have hbc2 : b < c := of_decide_eq_true h2
        have hac2 : a < c := lt_trans hab2 hbc2
        rw [if_neg (ne_of_lt hac2)]
        exact decide_eq_true hac2

theorem charListLe_antisymm : ∀ as bs : List Char,
    charListLe as bs = true → charListLe bs as = true → as = bs
  | [], [], _, _ => rfl
  | [], _ :: _, _, h2 => by simp [charListLe] at h2
  | _ :: _, [], h1, _ => by simp [charListLe] at h1
  | a :: as, b :: bs, h1, h2 => by
    rw [charListLe] at h1 h2
    by_cases hab : a = b
    · subst hab
      rw [if_pos rfl] at h1 h2
      rw [charListLe_antisymm as bs h1 h2]
    · rw [if_neg hab] at h1
      rw [if_neg (Ne.symm hab)] at h2
      exact absurd (of_decide_eq_true h2) (lt_asymm (of_decide_eq_true h1))

theorem strLe_refl (s : String) : strLe s s = true := charListLe_refl s.data

theorem strLe_total (s t : String) : strLe s t = true ∨ strLe t s = true :=
  charListLe_total s.data t.data

theorem strLe_trans {s t u : String} (h1 : strLe s t = true) (h2 : strLe t u = true) :
    strLe s u = true :=
  charListLe_trans s.data t.data u.data h1 h2

theorem strLe_antisymm : ∀ {s t : String}, strLe s t = true → strLe t s = true → s = t
  | ⟨as⟩, ⟨bs⟩, h1, h2 => congrArg String.mk (charListLe_antisymm as bs h1 h2)

theorem strLe_empty (s : String) : strLe "" s = true := rfl

theorem setEq_symm (a b : PyVal) : setEq a b = setEq b a := by
  cases a <;> cases b <;> simp only [setEq, PyVal.asNum] <;> first | rfl | exact Bool.beq_comm

/-- A value that can be an element of the timezone set: hashable and
not `None`. -/
def goodElem (v : PyVal) : Prop := v.hashable = true ∧ v.isNone = false

theorem setEq_refl {v : PyVal} (h : goodElem v) : setEq v v = true := by
  cases v <;> simp [setEq, PyVal.asNum] <;> simp [goodElem, PyVal.hashable, PyVal.isNone] at h

theorem isStr_iff {v : PyVal} : v.isStr = true ↔ ∃ s, v = PyVal.str s := by
  cases v <;> simp [PyVal.isStr, PyVal.asStr]

/-- Specification of `setAdd` on success. -/
theorem setAdd_ok {acc acc2 : List PyVal} {v : PyVal}
    (h : setAdd acc v = Except.ok acc2) :
    v.hashable = true ∧
      ((∃ w ∈ acc, setEq w v = true) ∧ acc2 = acc ∨
        (∀ w ∈ acc, setEq w v = false) ∧ acc2 = acc ++ [v]) := by
  rw [setAdd] at h
  by_cases hh : v.hashable = true
  · rw [if_pos hh] at h
    refine ⟨hh, ?_⟩
    by_cases hm : acc.any (fun w => setEq w v) = true
    · rw [if_pos hm] at h
      rcases List.any_eq_true.mp hm with ⟨w, hw, hwv⟩
      exact Or.inl ⟨⟨w, hw, hwv⟩, (Except.ok.injEq _ _ ▸ h).symm⟩
    · rw [if_neg hm] at h
      refine Or.inr ⟨fun w hw => ?_, (Except.ok.injEq _ _ ▸ h).symm⟩
      by_contra hc
      exact hm (List.any_eq_true.mpr ⟨w, hw, Bool.not_eq_false _ ▸ hc⟩)
  · rw [if_neg hh] at h
    exact absurd h (by simp)

/-! ### Properties of the accumulation loop -/

theorem collect_step_none {station : Record} {rest : List Record} {acc : List PyVal}
    (h : (pyGet station "timezone").isNone = true) :
    collectTimezones (station :: rest) acc = collectTimezones rest acc := by
  rw [collectTimezones, if_pos h]

theorem collect_step_some {station : Record} {rest : List Record} {acc : List PyVal}
    (h : (pyGet station "timezone").isNone = false) :
    collectTimezones (station :: rest) acc =
      match setAdd acc (pyGet station "timezone") with
      | Except.ok acc2 => collectTimezones rest acc2
      | Except.error e => Except.error e := by
  rw [collectTimezones, if_neg (by simp [h])]

/-- Elements already in the set persist through the rest of the loop. -/
theorem collect_mem_acc : ∀ (stations : List Record) (acc tzs : List PyVal),
    collectTimezones stations acc = Except.ok tzs → ∀ v ∈ acc, v ∈ tzs
  | [], acc, tzs, h, v, hv => by
    rw [collectTimezones] at h
    exact Except.ok.inj h ▸ hv
  | station :: rest, acc, tzs, h, v, hv => by
    by_cases hn : (pyGet station "timezone").isNone = true
    · rw [collect_step_none hn] at h
      exact collect_mem_acc rest acc tzs h v hv
    · rw [collect_step_some (Bool.eq_false_iff.mpr hn)] at h
      cases hadd : setAdd acc (pyGet station "timezone") with
      | ok acc2 =>
        rw [hadd] at h
        rcases setAdd_ok hadd with ⟨_, ⟨_, rfl⟩ | ⟨_, rfl⟩⟩
        · exact collect_mem_acc rest _ tzs h v hv
        · exact collect_mem_acc rest _ tzs h v (List.mem_append_left _ hv)
      | error e =>
        rw [hadd] at h
        simp at h

/-- Every element of the final set is one of the initial elements or a
`timezone` value of some input record. -/
theorem collect_subset : ∀ (stations : List Record) (acc tzs : List PyVal),
    collectTimezones stations acc = Except.ok tzs →
    ∀ v ∈ tzs, v ∈ acc ∨ ∃ st ∈ stations, pyGet st "timezone" = v
  | [], acc, tzs, h, v, hv => by
    rw [collectTimezones] at h
    exact Or.inl (Except.ok.inj h ▸ hv)
  | station :: rest, acc, tzs, h, v, hv => by
    by_cases hn : (pyGet station "timezone").isNone = true
    · rw [collect_step_none hn] at h
      rcases collect_subset rest acc tzs h v hv with hl | ⟨st, hst, hpg⟩
      · exact Or.inl hl
      · exact Or.inr ⟨st, List.mem_cons_of_mem _ hst, hpg⟩
    · rw [collect_step_some (Bool.eq_false_iff.mpr hn)] at h
      cases hadd : setAdd acc (pyGet station "timezone") with
      | ok acc2 =>
        rw [hadd] at h
        rcases setAdd_ok hadd with ⟨_, ⟨_, rfl⟩ | ⟨_, rfl⟩⟩
        · rcases collect_subset rest _ tzs h v hv with hl | ⟨st, hst, hpg⟩
          · exact Or.inl hl
          · exact Or.inr ⟨st, List.mem_cons_of_mem _ hst, hpg⟩
        · rcases collect_subset rest _ tzs h v hv with hl | ⟨st, hst, hpg⟩
          · rcases List.mem_append.mp hl with hl | hl
            · exact Or.inl hl
            · exact Or.inr ⟨station, List.mem_cons_self _ _,
                (List.mem_singleton.mp hl).symm⟩
          · exact Or.inr ⟨st, List.mem_cons_of_mem _ hst, hpg⟩
      | error e =>
        rw [hadd] at h
        simp at h

/-- The set only ever contains hashable non-`None` values, and no two
of its elements are `==`-equal. -/
theorem collect_props : ∀ (stations : List Record) (acc tzs : List PyVal),
    collectTimezones stations acc = Except.ok tzs →
    (∀ v ∈ acc, goodElem v) → acc.Pairwise (fun a b => setEq a b = false) →
    (∀ v ∈ tzs, goodElem v) ∧ tzs.Pairwise (fun a b => setEq a b = false)
  | [], acc, tzs, h, hg, hp => by
    rw [collectTimezones] at h
    exact Except.ok.inj h ▸ ⟨hg, hp⟩
  | station :: rest, acc, tzs, h, hg, hp => by
    by_cases hn : (pyGet station "timezone").isNone = true
    · rw [collect_step_none hn] at h
      exact collect_props rest acc tzs h hg hp
    · rw [collect_step_some (Bool.eq_false_iff.mpr hn)] at h
      cases hadd : setAdd acc (pyGet station "timezone") with
      | ok acc2 =>
        rw [hadd] at h
        rcases setAdd_ok hadd with ⟨hh, ⟨_, rfl⟩ | ⟨hnew, rfl⟩⟩
        · exact collect_props rest _ tzs h hg hp
        · refine collect_props rest _ tzs h ?_ ?_
          · intro v hv
            rcases List.mem_append.mp hv with hv | hv
            · exact hg v hv
            · rcases List.mem_singleton.mp hv with rfl
              exact ⟨hh, Bool.eq_false_iff.mpr hn⟩
          · refine List.pairwise_append.mpr ⟨hp, by simp, ?_⟩
            intro a ha b hb
            rcases List.mem_singleton.mp hb with rfl
            exact hnew a ha
      | error e =>
        rw [hadd] at h
        simp at h

/-- Every non-`None` `timezone` value of an input record is represented
in the final set by a `==`-equal element. -/
theorem collect_contribution : ∀ (stations : List Record) (acc tzs : List PyVal)
    (st : Record) (v : PyVal),
    collectTimezones stations acc = Except.ok tzs → st ∈ stations →
    pyGet st "timezone" = v → v.isNone = false →
    ∃ w ∈ tzs, setEq w v = true
  | [], _, _, _, _, _, hst, _, _ => absurd hst (List.not_mem_nil _)
  | station :: rest, acc, tzs, st, v, h, hst, hpg, hnone => by
    rcases List.mem_cons.mp hst with rfl | hst2
    · rw [collect_step_some (hpg ▸ hnone)] at h
      rw [hpg] at h
      cases hadd : setAdd acc v with
      | ok acc2 =>
        rw [hadd] at h
        rcases setAdd_ok hadd with ⟨hh, ⟨⟨w, hw, hweq⟩, rfl⟩ | ⟨_, rfl⟩⟩
        · exact ⟨w, collect_mem_acc rest _ tzs h w hw, hweq⟩
        · exact ⟨v, collect_mem_acc rest _ tzs h v
            (List.mem_append_right _ (List.mem_singleton_self _)),
            setEq_refl ⟨hh, hnone⟩⟩
      | error e =>
        rw [hadd] at h
        simp at h
    · by_cases hn : (pyGet station "timezone").isNone = true
      · rw [collect_step_none hn] at h
        exact collect_contribution rest acc tzs st v h hst2 hpg hnone
      · rw [collect_step_some (Bool.eq_false_iff.mpr hn)] at h
        cases hadd : setAdd acc (pyGet station "timezone") with
        | ok acc2 =>
          rw [hadd] at h
          exact collect_contribution rest acc2 tzs st v h hst2 hpg hnone
        | error e =>
          rw [hadd] at h
          simp at h

/-- On valid input the loop cannot fail, and the resulting set consists
of strings. -/
theorem collect_valid : ∀ (stations : List Record) (acc : List PyVal),
    validStations stations → (∀ v ∈ acc, v.isStr = true) →
    ∃ tzs, collectTimezones stations acc = Except.ok tzs ∧ ∀ v ∈ tzs, v.isStr = true
  | [], acc, _, hs => ⟨acc, by rw [collectTimezones], hs⟩
  | station :: rest, acc, hv, hs => by
    have hrest : validStations rest := fun st hst => hv st (List.mem_cons_of_mem _ hst)
    rcases hv station (List.mem_cons_self _ _) with hnone | hstr
    · rw [collect_step_none (by rw [hnone]; rfl)]
      exact collect_valid rest acc hrest hs
    · rcases isStr_iff.mp hstr with ⟨s, hsv⟩
      rw [collect_step_some (by rw [hsv]; rfl), hsv]
      have hadd : setAdd acc (PyVal.str s) =
          Except.ok (if acc.any fun w => setEq w (PyVal.str s) then acc
            else acc ++ [PyVal.str s]) := rfl
      rw [hadd]
      by_cases hany : (acc.any fun w => setEq w (PyVal.str s)) = true
      · rw [if_pos hany]
        exact collect_valid rest acc hrest hs
      · rw [if_neg hany]
        refine collect_valid rest _ hrest ?_
        intro v hvmem
        rcases List.mem_append.mp hvmem with hvmem | hvmem
        · exact hs v hvmem
        · rcases List.mem_singleton.mp hvmem with rfl
          rfl

/-! ### Properties of the sort step -/

theorem pySorted_perm_of_ok : ∀ {xs ys : List PyVal},
    pySorted xs = Except.ok ys → ys.Perm xs := by
  intro xs ys h
  match xs with
  | [] =>
    rw [pySorted] at h
    exact Except.ok.inj h ▸ List.Perm.refl _
  | [x] =>
    rw [pySorted] at h
    exact Except.ok.inj h ▸ List.Perm.refl _
  | a :: b :: rest =>
    simp only [pySorted] at h
    by_cases hnum : ((a :: b :: rest).all fun v => v.asNum.isSome) = true
    · rw [if_pos hnum] at h
      exact Except.ok.inj h ▸ List.perm_insertionSort _ _
    · rw [if_neg hnum] at h
      by_cases hstr : ((a :: b :: rest).all fun v => v.isStr) = true
      · rw [if_pos hstr] at h
        exact Except.ok.inj h ▸ List.perm_insertionSort _ _
      · rw [if_neg hstr] at h
        simp at h

theorem perm_all_eq {α : Type} {l1 l2 : List α} (h : l1.Perm l2) (f : α → Bool) :
    l1.all f = l2.all f := by
  cases hax : l2.all f with
  | true => exact List.all_eq_true.mpr fun v hv => List.all_eq_true.mp hax v (h.subset hv)
  | false =>
    rcases List.all_eq_false.mp hax with ⟨v, hv, hnv⟩
    exact List.all_eq_false.mpr ⟨v, h.symm.subset hv, hnv⟩

theorem setEq_of_num {a b : PyVal} {m n : Int} (ha : a.asNum = Option.some m)
    (hb : b.asNum = Option.some n) : setEq a b = (m == n) := by
  simp only [setEq, ha, hb]

theorem setEq_str (s t : String) : setEq (PyVal.str s) (PyVal.str t) = (s == t) := rfl

theorem pySorted_all_str {xs : List PyVal} (h : ∀ v ∈ xs, v.isStr = true) :
    ∃ ys, pySorted xs = Except.ok ys ∧
      ys.Pairwise fun a b => strLe (strKey a) (strKey b) = true := by
  match xs with
  | [] => exact ⟨[], rfl, List.Pairwise.nil⟩
  | [x] => exact ⟨[x], rfl, by simp⟩
  | a :: b :: rest =>
    have hnum : ((a :: b :: rest).all fun v => v.asNum.isSome) = false := by
      rcases isStr_iff.mp (h a (List.mem_cons_self _ _)) with ⟨s, hsa⟩
      refine List.all_eq_false.mpr ⟨a, List.mem_cons_self _ _, ?_⟩
      rw [hsa]
      simp [PyVal.asNum]
    have hstr : ((a :: b :: rest).all fun v => v.isStr) = true :=
      List.all_eq_true.mpr h
    refine ⟨List.insertionSort (fun a b => strLe (strKey a) (strKey b) = true)
      (a :: b :: rest), ?_, ?_⟩
    · simp only [pySorted, hnum, hstr]
      rfl
    · exact @List.sorted_insertionSort PyVal
        (fun a b => strLe (strKey a) (strKey b) = true)
        (fun a b => instDecidableEqBool _ _)
        ⟨fun a b => strLe_total _ _⟩
        ⟨fun a b c h1 h2 => strLe_trans h1 h2⟩ _

theorem pySorted_mixed {xs : List PyVal} {s : String} {v : PyVal}
    (hs : PyVal.str s ∈ xs) (hv : v ∈ xs) (hvs : v.isStr = false) :
    pySorted xs = Except.error PyError.typeErrorUnorderable := by
  match xs with
  | [] => exact absurd hs (List.not_mem_nil _)
  | [x] =>
    have h1 := List.mem_singleton.mp hs
    have h2 := List.mem_singleton.mp hv
    rw [h2, ← h1] at hvs
    simp [PyVal.isStr, PyVal.asStr] at hvs
  | a :: b :: rest =>
    have hnum : ((a :: b :: rest).all fun w => w.asNum.isSome) = false := by
      refine List.all_eq_false.mpr ⟨PyVal.str s, hs, ?_⟩
      simp [PyVal.asNum]
    have hstr : ((a :: b :: rest).all fun w => w.isStr) = false :=
      List.all_eq_false.mpr ⟨v, hv, by simp [hvs]⟩
    simp only [pySorted, hnum, hstr]
    rfl

theorem sorted_perm_eq_on {α : Type} {r : α → α → Prop} :
    ∀ l1 l2 : List α, (∀ a ∈ l1, ∀ b ∈ l1, r a b → r b a → a = b) →
      l1.Perm l2 → l1.Pairwise r → l2.Pairwise r → l1 = l2
  | [], _, _, hp, _, _ => hp.nil_eq
  | a :: t1, [], _, hp, _, _ => absurd hp.eq_nil (List.cons_ne_nil _ _)
  | a :: t1, b :: t2, hanti, hp, h1, h2 => by
    have hab : a = b := by
      by_contra hne
      have hamem : a ∈ b :: t2 := hp.subset (List.mem_cons_self _ _)
      have hbmem : b ∈ a :: t1 := hp.symm.subset (List.mem_cons_self _ _)
      have ha2 : a ∈ t2 := by
        rcases List.mem_cons.mp hamem with h | h
        · exact absurd h hne
        · exact h
      have hb1 : b ∈ t1 := by
        rcases List.mem_cons.mp hbmem with h | h
        · exact absurd h.symm hne
        · exact h
      have hrab : r a b := (List.pairwise_cons.mp h1).1 b hb1
      have hrba : r b a := (List.pairwise_cons.mp h2).1 a ha2
      exact hne (hanti a (List.mem_cons_self _ _) b (List.mem_cons_of_mem _ hb1) hrab hrba)
    subst hab
    have hteq : t1 = t2 :=
      sorted_perm_eq_on t1 t2
        (fun x hx y hy hxy hyx =>
          hanti x (List.mem_cons_of_mem _ hx) y (List.mem_cons_of_mem _ hy) hxy hyx)
        hp.cons_inv (List.pairwise_cons.mp h1).2 (List.pairwise_cons.mp h2).2
    rw [hteq]

theorem pySorted_perm_eq {xs ys : List PyVal}
    (hgood : ∀ v ∈ xs, goodElem v)
    (hnd : xs.Pairwise fun a b => setEq a b = false)
    (hperm : xs.Perm ys) :
    pySorted xs = pySorted ys := by
  have hsymm : Symmetric fun a b : PyVal => setEq a b = false := by
    intro a b h
    rw [setEq_symm] at h
    exact h
  have hne : ∀ a ∈ xs, ∀ b ∈ xs, a ≠ b → setEq a b = false :=
    fun a ha b hb hab => hnd.forall hsymm ha hb hab
  cases xs with
  | nil =>
    rw [← hperm.nil_eq]
  | cons a t1 =>
    cases t1 with
    | nil =>
      rw [List.singleton_perm.mp hperm]
    | cons b rest =>
      cases ys with
      | nil => exact absurd hperm.eq_nil (List.cons_ne_nil _ _)
      | cons c t2 =>
        cases t2 with
        | nil =>
          have := hperm.length_eq
          simp at this
        | cons d rest2 =>
          have hallnum := perm_all_eq hperm fun v => v.asNum.isSome
          have hallstr := perm_all_eq hperm fun v => v.isStr
          simp only [pySorted]
          by_cases hnum : ((a :: b :: rest).all fun v => v.asNum.isSome) = true
          · have hnumY : ((c :: d :: rest2).all fun v => v.asNum.isSome) = true := by
              rw [← hallnum]; exact hnum
            rw [if_pos hnum, if_pos hnumY]
            congr 1
            haveI : IsTotal PyVal fun a b : PyVal => numKey a ≤ numKey b :=
              ⟨fun a b => le_total _ _⟩
            haveI : IsTrans PyVal fun a b : PyVal => numKey a ≤ numKey b :=
              ⟨fun a b c h1 h2 => le_trans h1 h2⟩
            apply sorted_perm_eq_on
            · intro p hp q hq hpq hqp
              have hpX : p ∈ a :: b :: rest := (List.perm_insertionSort _ _).subset hp
              have hqX : q ∈ a :: b :: rest := (List.perm_insertionSort _ _).subset hq
              by_contra hne2
              rcases Option.isSome_iff_exists.mp (List.all_eq_true.mp hnum p hpX) with ⟨m, hm⟩
              rcases Option.isSome_iff_exists.mp (List.all_eq_true.mp hnum q hqX) with ⟨n, hn⟩
              have hfalse : setEq p q = false := hne p hpX q hqX hne2
              rw [setEq_of_num hm hn] at hfalse
              have hkey : numKey p = numKey q := le_antisymm hpq hqp
              have hm2 : numKey p = m := by simp [numKey, hm]
              have hn2 : numKey q = n := by simp [numKey, hn]
              rw [hm2, hn2] at hkey
              simp [hkey] at hfalse
            · exact (List.perm_insertionSort _ _).trans
                (hperm.trans (List.perm_insertionSort _ _).symm)
            · exact List.sorted_insertionSort _ _
            · exact List.sorted_insertionSort _ _
          · have hnumY : ¬((c :: d :: rest2).all fun v => v.asNum.isSome) = true := by
              rw [← hallnum]; exact hnum
            rw [if_neg hnum, if_neg hnumY]
            by_cases hstr : ((a :: b :: rest).all fun v => v.isStr) = true
            · have hstrY : ((c :: d :: rest2).all fun v => v.isStr) = true := by
                rw [← hallstr]; exact hstr
              rw [if_pos hstr, if_pos hstrY]
              congr 1
              haveI : IsTotal PyVal fun a b : PyVal => strLe (strKey a) (strKey b) = true :=
                ⟨fun a b => strLe_total _ _⟩
              haveI : IsTrans PyVal fun a b : PyVal => strLe (strKey a) (strKey b) = true :=
                ⟨fun a b c h1 h2 => strLe_trans h1 h2⟩
              apply sorted_perm_eq_on
              · intro p hp q hq hpq hqp
                have hpX : p ∈ a :: b :: rest := (List.perm_insertionSort _ _).subset hp
                have hqX : q ∈ a :: b :: rest := (List.perm_insertionSort _ _).subset hq
                by_contra hne2
                rcases isStr_iff.mp (List.all_eq_true.mp hstr p hpX) with ⟨sp, hsp⟩
                rcases isStr_iff.mp (List.all_eq_true.mp hstr q hqX) with ⟨sq, hsq⟩
                have hfalse : setEq p q = false := hne p hpX q hqX hne2
                have hkey : strKey p = strKey q := strLe_antisymm hpq hqp
                rw [hsp, hsq] at hkey hfalse
                have hsk : sp = sq := by simpa [strKey, PyVal.asStr] using hkey
                rw [setEq_str, hsk] at hfalse
                simp at hfalse
              · exact (List.perm_insertionSort _ _).trans
                  (hperm.trans (List.perm_insertionSort _ _).symm)
              · exact List.sorted_insertionSort _ _
              · exact List.sorted_insertionSort _ _
            · have hstrY : ¬((c :: d :: rest2).all fun v => v.isStr) = true := by
                rw [← hallstr]; exact hstr
              rw [if_neg hstr, if_neg hstrY]

/-! ### Small bridging lemmas -/

theorem isNone_eq_false_iff {v : PyVal} : v.isNone = false ↔ v ≠ PyVal.none := by
  cases v <;> simp [PyVal.isNone]

theorem map_pyStr_str : ∀ l : List PyVal, (∀ v ∈ l, v.isStr = true) →
    (l.map pyStr).map PyVal.str = l
  | [], _ => rfl
  | v :: t, h => by
    rcases isStr_iff.mp (h v (List.mem_cons_self _ _)) with ⟨s, rfl⟩
    simp only [List.map_cons, pyStr]
    rw [map_pyStr_str t fun w hw => h w (List.mem_cons_of_mem _ hw)]

theorem charListLe_nil_right : ∀ {as : List Char}, charListLe as [] = true → as = []
  | [], _ => rfl
  | _ :: _, h => by simp [charListLe] at h

/-! ### The claims -/

/-- C1: for every valid input (a JSON array of objects whose present,
non-null `timezone` values are strings), `find_unique_timezones`
succeeds and the returned sequence consists of strings, contains no
duplicate values, and is sorted in ascending lexicographic order. -/
theorem find_unique_timezones_nodup_sorted (stations : List Record)
    (hvalid : validStations stations) :
    ∃ ys, find_unique_timezones stations = Except.ok ys ∧
      (∀ v ∈ ys, v.isStr = true) ∧ ys.Nodup ∧
      ys.Pairwise fun a b => strLe (strKey a) (strKey b) = true := by
  rcases collect_valid stations [] hvalid (by simp) with ⟨tzs, hcol, hstr⟩
  rcases collect_props stations [] tzs hcol (by simp) List.Pairwise.nil with ⟨hgood, hnd⟩
  rcases pySorted_all_str hstr with ⟨ys, hsort, hpair⟩
  have hperm : ys.Perm tzs := pySorted_perm_of_ok hsort
  have hndtzs : tzs.Nodup := by
    refine hnd.imp_of_mem ?_
    intro a b ha hb hfalse
    intro hab
    rw [hab] at hfalse
    rw [setEq_refl (hgood b hb)] at hfalse
    exact Bool.true_eq_false ▸ hfalse
  refine ⟨ys, ?_, fun v hv => hstr v (hperm.subset hv), hperm.symm.nodup hndtzs, hpair⟩
  simp only [find_unique_timezones, hcol]
  exact hsort

/-- Witness for C1 at a concrete valid input. -/
theorem find_unique_timezones_nodup_sorted_witness :
    ∃ ys, find_unique_timezones
        [[("timezone", PyVal.str "UTC")], [("timezone", PyVal.str "America/New_York")]] =
        Except.ok ys ∧
      (∀ v ∈ ys, v.isStr = true) ∧ ys.Nodup ∧
      ys.Pairwise fun a b => strLe (strKey a) (strKey b) = true :=
  find_unique_timezones_nodup_sorted _ (by
    intro st hst
    rcases List.mem_cons.mp hst with rfl | hst
    · exact Or.inr rfl
    · rcases List.mem_singleton.mp hst with rfl
      exact Or.inr rfl)

/-- C2: for every valid input, the returned sequence is exactly the set
of non-null `timezone` values of the input: every returned value occurs
as the `timezone` field of some record, and every non-null `timezone`
field value occurs in the returned sequence. -/
theorem find_unique_timezones_exact (stations : List Record)
    (hvalid : validStations stations) (ys : List PyVal)
    (hfind : find_unique_timezones stations = Except.ok ys) :
    (∀ v ∈ ys, ∃ st ∈ stations, pyGet st "timezone" = v) ∧
      (∀ st ∈ stations, pyGet st "timezone" ≠ PyVal.none →
        pyGet st "timezone" ∈ ys) := by
  cases hcol : collectTimezones stations [] with
  | error e => simp [find_unique_timezones, hcol] at hfind
  | ok tzs =>
    simp only [find_unique_timezones, hcol] at hfind
    have hperm : ys.Perm tzs := pySorted_perm_of_ok hfind
    have hstr : ∀ v ∈ tzs, v.isStr = true := by
      rcases collect_valid stations [] hvalid (by simp) with ⟨tzs2, hcol2, hstr2⟩
      rw [hcol] at hcol2
      exact Except.ok.inj hcol2 ▸ hstr2
    constructor
    · intro v hv
      rcases collect_subset stations [] tzs hcol v (hperm.subset hv) with h | h
      · exact absurd h (List.not_mem_nil _)
      · exact h
    · intro st hst hnn
      have hcontrib := collect_contribution stations [] tzs st (pyGet st "timezone")
        hcol hst rfl (isNone_eq_false_iff.mpr hnn)
      rcases hcontrib with ⟨w, hw, hweq⟩
      rcases isStr_iff.mp (hstr w hw) with ⟨t, rfl⟩
      have hvstr : (pyGet st "timezone") = PyVal.none ∨ (pyGet st "timezone").isStr = true :=
        hvalid st hst
      rcases hvstr with h | h
      · exact absurd h hnn
      · rcases isStr_iff.mp h with ⟨s, hseq⟩
        rw [hseq] at hweq ⊢
        rw [setEq_str] at hweq
        have : t = s := by simpa using hweq
        rw [← this]
        exact hperm.symm.subset hw

/-- Witness for C2 at a concrete valid input. -/
theorem find_unique_timezones_exact_witness :
    (∀ v ∈ [PyVal.str "UTC"],
        ∃ st ∈ [[("timezone", PyVal.str "UTC")]], pyGet st "timezone" = v) ∧
      (∀ st ∈ [[("timezone", PyVal.str "UTC")]],
        pyGet st "timezone" ≠ PyVal.none → pyGet st "timezone" ∈ [PyVal.str "UTC"]) :=
  find_unique_timezones_exact _ (by
    intro st hst
    rcases List.mem_singleton.mp hst with rfl
    exact Or.inr rfl) _ rfl

theorem collect_skip {st : Record} (hnone : pyGet st "timezone" = PyVal.none) :
    ∀ (pre post : List Record) (acc : List PyVal),
      collectTimezones (pre ++ st :: post) acc = collectTimezones (pre ++ post) acc
  | [], post, acc => by
    simp only [List.nil_append]
    exact collect_step_none (by rw [hnone]; rfl)
  | p :: pre, post, acc => by
    simp only [List.cons_append]
    by_cases hn : (pyGet p "timezone").isNone = true
    · rw [collect_step_none hn, collect_step_none hn]
      exact collect_skip hnone pre post acc
    · rw [collect_step_some (Bool.eq_false_iff.mpr hn),
        collect_step_some (Bool.eq_false_iff.mpr hn)]
      cases setAdd acc (pyGet p "timezone") with
      | ok acc2 => exact collect_skip hnone pre post acc2
      | error e => rfl

/-- C3: a record that lacks the `timezone` key or maps it to `null`
(both of which make `dict.get` return `None`) contributes nothing:
removing it from the input leaves the result unchanged. -/
theorem find_unique_timezones_skip_none (pre post : List Record) (st : Record)
    (hnone : pyGet st "timezone" = PyVal.none) :
    find_unique_timezones (pre ++ st :: post) = find_unique_timezones (pre ++ post) := by
  rw [find_unique_timezones, find_unique_timezones, collect_skip hnone pre post]

/-- Witness for C3: dropping a record without a `timezone` key. -/
theorem find_unique_timezones_skip_none_witness :
    find_unique_timezones
        ([[("timezone", PyVal.str "UTC")]] ++ [("name", PyVal.str "A")] :: [[("timezone", PyVal.none)]]) =
      find_unique_timezones ([[("timezone", PyVal.str "UTC")]] ++ [[("timezone", PyVal.none)]]) :=
  find_unique_timezones_skip_none _ _ _ rfl

/-- C4: a missing input file fails with a file-not-found error, and
contents that are not valid JSON fail with a parse error; in either
case the run produces an `Except.error`, which carries no output
lines, so nothing is printed. -/
theorem runProgram_error_cases (parseJson : String → Option (List Record))
    (contents : String) (hbad : parseJson contents = Option.none) :
    runProgram Option.none parseJson = Except.error RunError.fileNotFound ∧
      runProgram (Option.some contents) parseJson = Except.error RunError.jsonParseError := by
  constructor
  · rfl
  · simp only [runProgram, hbad]

/-- Witness for C4 with a parser that rejects the contents. -/
theorem runProgram_error_cases_witness :
    runProgram Option.none (fun _ => Option.none) = Except.error RunError.fileNotFound ∧
      runProgram (Option.some "not valid json") (fun _ => Option.none) =
        Except.error RunError.jsonParseError :=
  runProgram_error_cases (fun _ => Option.none) "not valid json" rfl

/-- Counterexample to C5: the input `[{"timezone": 5}]` has a present,
non-null, non-text `timezone` value, yet `find_unique_timezones`
succeeds and returns `[5]` instead of failing with a type error
(`sorted` on the one-element set `{5}` performs no comparison). -/
theorem find_unique_timezones_single_number_ok :
    find_unique_timezones [[("timezone", PyVal.int 5)]] = Except.ok [PyVal.int 5] := rfl

/-- C5 (amended): a type error is raised — and propagated, not
recovered — exactly when the collected values mix types: if the set
handed to `sorted` contains both a text value and a non-text value,
`find_unique_timezones` fails with the `TypeError` from `sorted`. -/
theorem find_unique_timezones_mixed_types_error (stations : List Record)
    (tzs : List PyVal) (s : String) (v : PyVal)
    (hcol : collectTimezones stations [] = Except.ok tzs)
    (hs : PyVal.str s ∈ tzs) (hv : v ∈ tzs) (hvs : v.isStr = false) :
    find_unique_timezones stations = Except.error PyError.typeErrorUnorderable := by
  simp only [find_unique_timezones, hcol]
  exact pySorted_mixed hs hv hvs

/-- Witness for the amended C5: a string and a number together. -/
theorem find_unique_timezones_mixed_types_error_witness :
    collectTimezones [[("timezone", PyVal.str "UTC")], [("timezone", PyVal.int 5)]] [] =
        Except.ok [PyVal.str "UTC", PyVal.int 5] ∧
      find_unique_timezones [[("timezone", PyVal.str "UTC")], [("timezone", PyVal.int 5)]] =
        Except.error PyError.typeErrorUnorderable :=
  ⟨rfl, find_unique_timezones_mixed_types_error _ _ "UTC" (PyVal.int 5) rfl
    (List.mem_cons_self _ _) (List.mem_cons_of_mem _ (List.mem_cons_self _ _)) rfl⟩

/-- C6: on a successful run the program prints the line
`Found N unique timezones:` with `N` the length of the returned
sequence, followed by exactly `N` further lines, one per returned value,
in the returned order; on valid input those lines are the timezone
strings themselves. -/
theorem mainOutput_format (stations : List Record) (tzs : List PyVal)
    (hfind : find_unique_timezones stations = Except.ok tzs) :
    mainOutput stations =
        Except.ok (("Found " ++ toString tzs.length ++ " unique timezones:") :: tzs.map pyStr) ∧
      (tzs.map pyStr).length = tzs.length ∧
      ((∀ v ∈ tzs, v.isStr = true) → (tzs.map pyStr).map PyVal.str = tzs) := by
  refine ⟨?_, List.length_map _ _, fun h => map_pyStr_str tzs h⟩
  simp only [mainOutput, hfind]

/-- Witness for C6 at a concrete input. -/
theorem mainOutput_format_witness :
    mainOutput [[("timezone", PyVal.str "UTC")]] =
        Except.ok (("Found " ++ toString [PyVal.str "UTC"].length ++ " unique timezones:") ::
          [PyVal.str "UTC"].map pyStr) ∧
      ([PyVal.str "UTC"].map pyStr).length = [PyVal.str "UTC"].length ∧
      ((∀ v ∈ [PyVal.str "UTC"], v.isStr = true) →
        ([PyVal.str "UTC"].map pyStr).map PyVal.str = [PyVal.str "UTC"]) :=
  mainOutput_format _ _ rfl

/-- C7: the result is a function of the parsed file contents alone: the
iteration order in which Python's `set` happens to hand its elements to
`sorted` is irrelevant, so two runs of the Collector on the same file
contents return identical sequences (and hence print identical output,
which is a function of the returned sequence). -/
theorem find_unique_timezones_deterministic (stations : List Record)
    (tzs l : List PyVal)
    (hcol : collectTimezones stations [] = Except.ok tzs)
    (hperm : tzs.Perm l) :
    find_unique_timezones stations = pySorted l := by
  rcases collect_props stations [] tzs hcol (by simp) List.Pairwise.nil with ⟨hgood, hnd⟩
  simp only [find_unique_timezones, hcol]
  exact pySorted_perm_eq hgood hnd hperm

/-- Witness for C7: sorting the set in a different enumeration order. -/
theorem find_unique_timezones_deterministic_witness :
    find_unique_timezones [[("timezone", PyVal.str "UTC")], [("timezone", PyVal.str "A")]] =
      pySorted [PyVal.str "A", PyVal.str "UTC"] :=
  find_unique_timezones_deterministic _ _ _ rfl (List.Perm.swap _ _ _)

/-- C8: the concrete scenario
`[{"timezone": "UTC"}, {"timezone": "UTC"}, {"timezone": "America/New_York"}]`
returns `["America/New_York", "UTC"]` and prints
`Found 2 unique timezones:` followed by those two lines in that order. -/
theorem program_scenario_one :
    find_unique_timezones
        [[("timezone", PyVal.str "UTC")], [("timezone", PyVal.str "UTC")],
          [("timezone", PyVal.str "America/New_York")]] =
        Except.ok [PyVal.str "America/New_York", PyVal.str "UTC"] ∧
      mainOutput
        [[("timezone", PyVal.str "UTC")], [("timezone", PyVal.str "UTC")],
          [("timezone", PyVal.str "America/New_York")]] =
        Except.ok ["Found 2 unique timezones:", "America/New_York", "UTC"] :=
  ⟨rfl, rfl⟩

/-- Counterexample to C9: a present, non-null, non-text `timezone`
value that is a JSON array is *not* inserted as-is: `set.add` rejects
it at extraction time with `TypeError: unhashable type`. -/
theorem find_unique_timezones_unhashable_rejected :
    find_unique_timezones [[("timezone", PyVal.list [])]] =
      Except.error PyError.typeErrorUnhashable := rfl

/-- C9 (amended): a present, non-null `timezone` value of hashable kind
(number, boolean or string) is inserted into the set as-is — up to
Python `==`, under which `True` equals `1` — and, whenever the run
succeeds (in particular when types are not mixed), is represented in
the returned sequence by a `==`-equal element; unhashable values
(arrays, objects) are instead rejected at insertion time. -/
theorem find_unique_timezones_inserts_hashable (stations : List Record)
    (tzs : List PyVal) (st : Record) (v : PyVal)
    (hst : st ∈ stations) (hpg : pyGet st "timezone" = v) (hnn : v.isNone = false)
    (hfind : find_unique_timezones stations = Except.ok tzs) :
    ∃ w ∈ tzs, setEq w v = true := by
  cases hcol : collectTimezones stations [] with
  | error e => simp [find_unique_timezones, hcol] at hfind
  | ok tzs0 =>
    simp only [find_unique_timezones, hcol] at hfind
    rcases collect_contribution stations [] tzs0 st v hcol hst hpg hnn with ⟨w, hw, hweq⟩
    exact ⟨w, (pySorted_perm_of_ok hfind).symm.subset hw, hweq⟩

/-- Witness for the amended C9: the number 5 survives into the result. -/
theorem find_unique_timezones_inserts_hashable_witness :
    ∃ w ∈ [PyVal.int 5], setEq w (PyVal.int 5) = true :=
  find_unique_timezones_inserts_hashable [[("timezone", PyVal.int 5)]] _ _ _
    (List.mem_singleton_self _) rfl rfl rfl

/-- C10: an empty-string `timezone` value passes the `is not None`
check (which compares only against null, not against falsy values), so
`""` is included in the returned sequence; and since `""` is the least
string in lexicographic order, it is the first element of the result. -/
theorem empty_string_timezone_first (stations : List Record) (st : Record)
    (hvalid : validStations stations) (hst : st ∈ stations)
    (hpg : pyGet st "timezone" = PyVal.str "") :
    ∃ ys, find_unique_timezones stations = Except.ok ys ∧
      PyVal.str "" ∈ ys ∧ ys.head? = Option.some (PyVal.str "") := by
  rcases collect_valid stations [] hvalid (by simp) with ⟨tzs, hcol, hstr⟩
  rcases pySorted_all_str hstr with ⟨ys, hsort, hpair⟩
  have hperm : ys.Perm tzs := pySorted_perm_of_ok hsort
  rcases collect_contribution stations [] tzs st (PyVal.str "") hcol hst hpg rfl with
    ⟨w, hw, hweq⟩
  rcases isStr_iff.mp (hstr w hw) with ⟨t, rfl⟩
  rw [setEq_str] at hweq
  have ht : t = "" := by simpa using hweq
  subst ht
  have hmem : PyVal.str "" ∈ ys := hperm.symm.subset hw
  refine ⟨ys, ?_, hmem, ?_⟩
  · simp only [find_unique_timezones, hcol]
    exact hsort
  · cases ys with
    | nil => exact absurd hmem (List.not_mem_nil _)
    | cons hd t2 =>
      rcases List.mem_cons.mp hmem with rfl | hmem2
      · rfl
      · have hle : strLe (strKey hd) (strKey (PyVal.str "")) = true :=
          (List.pairwise_cons.mp hpair).1 _ hmem2
        have hhs : hd.isStr = true := hstr hd (hperm.subset (List.mem_cons_self _ _))
        rcases isStr_iff.mp hhs with ⟨hs, rfl⟩
        have hle2 : strLe hs "" = true := hle
        have hseq : hs = "" := strLe_antisymm hle2 (strLe_empty hs)
        rw [hseq]
        rfl

/-- Witness for C10 at a concrete input containing `""`. -/
theorem empty_string_timezone_first_witness :
    ∃ ys, find_unique_timezones
        [[("timezone", PyVal.str "UTC")], [("timezone", PyVal.str "")]] =
        Except.ok ys ∧
      PyVal.str "" ∈ ys ∧ ys.head? = Option.some (PyVal.str "") :=
  empty_string_timezone_first _ [("timezone", PyVal.str "")]
    (by
      intro st hst
      rcases List.mem_cons.mp hst with rfl | hst
      · exact Or.inr rfl
      · rcases List.mem_singleton.mp hst with rfl
        exact Or.inr rfl)
    (List.mem_cons_of_mem _ (List.mem_singleton_self _)) rfl
